import Mathlib

/-!
Shallow embedding of `youtube_dl_gui/dlthread.py`: the `DownloadManager`
scheduler and its `Worker` pool.

The Python module runs one thread for the manager's dispatch loop and one
per worker.  We embed it as an explicit state-transition model: pure
records for the mutable state of each object, and a step function for the
manager's `run` loop driven by an oracle schedule.  Each schedule entry
(`IterEffect`) describes what happens during one `time.sleep(WAIT_TIME)`
window of the dispatch loop: which busy workers' downloader calls return
(and with which return code), how many times `stop_downloads` is called
from the GUI thread, and which urls `add_url` appends.  Observable calls
(`worker.download`, `_talk_to_gui` signals, `worker.close`/`join`, the
finalization of `_time_it_took`) are recorded in an event trace.
-/

namespace DlThread

/-- Return codes of `YoutubeDLDownloader` (`downloaders` module): the
constants compared against in `Worker.run` and produced by
`downloader.download`. -/
inductive RetCode where
  | OK
  | ERROR
  | WARNING
  | ALREADY
  | STOPPED
deriving DecidableEq, Repr

/-- A url dictionary as stored in `urls_list`: the keys `url` and `index`
(the row of the GUI list to report to). -/
structure Item where
  url : String
  index : Int
deriving DecidableEq, Repr

/-- Mutable state of a `Worker` (from `Worker.__init__`): the `_running`
flag of its loop, the currently assigned `_url` (None means idle) and the
row `_index` of the current (or last) assignment. -/
structure WorkerState where
  running : Bool
  url : Option String
  index : Int
deriving DecidableEq, Repr

namespace Worker

/-- Python `Worker.__init__`: `_running = True`, `_url = None`, `_index = -1`. -/
def initState : WorkerState :=
  { running := true, url := none, index := -1 }

/-- Python `Worker.available`: true iff `_url is None`. -/
def available (w : WorkerState) : Bool :=
  w.url.isNone

/-- Python `Worker.download item`: store `item['url']` and `item['index']`. -/
def download (w : WorkerState) (item : Item) : WorkerState :=
  { w with url := some item.url, index := item.index }

/-- Python `Worker.close`: set `_running = False` (and ask the downloader to
stop; the in-flight call, if any, then returns and is handled at join
time). -/
def close (w : WorkerState) : WorkerState :=
  { w with running := false }

end Worker

/-- The guard in `Worker.run`:
`ret_code == YoutubeDLDownloader.OK or ret_code == YoutubeDLDownloader.ALREADY`. -/
def isSuccessCode (c : RetCode) : Bool :=
  c == RetCode.OK || c == RetCode.ALREADY

/-- One completed downloader call inside `Worker.run`'s busy branch:
bump the manager's `_successful` counter via the `increase_succ` callback
when the return code is a success, then `self._url = None` (the `_index`
field is NOT reset).  Returns the updated worker and counter. -/
def workerComplete (w : WorkerState) (c : RetCode) (succ : Nat) :
    WorkerState × Nat :=
  ({ w with url := none }, if isSuccessCode c then succ + 1 else succ)

/-- Mutable state of the `DownloadManager` (from
`DownloadManager.__init__`): the pending `urls_list`, the worker pool
`_workers`, the `_successful` counter and the `_running` flag. -/
structure ManagerState where
  urls_list : List Item
  workers : List WorkerState
  successful : Nat
  running : Bool
deriving DecidableEq, Repr

/-- Observable calls recorded while the model runs. -/
inductive Event where
  /-- Python `worker.download(item)` on the worker at the given pool position. -/
  | assign (worker : Nat) (item : Item)
  /-- Python `DownloadManager._talk_to_gui(s)` with `s` one of
  `closing`, `closed`, `finished`. -/
  | signal (s : String)
  /-- Python `worker.close()` on the worker at the given pool position. -/
  | closeW (worker : Nat)
  /-- Python `worker.join()` returned: that worker's thread has fully exited. -/
  | joinW (worker : Nat)
  /-- Python `self._time_it_took = time.time() - self._time_it_took`. -/
  | timeFinal
deriving DecidableEq, Repr

namespace DownloadManager

/-- Python `DownloadManager.WORKERS_NUMBER`. -/
def WORKERS_NUMBER : Nat := 3

/-- Python `DownloadManager._init_workers` generalized over the pool size:
a list of `n` fresh workers.  The source instantiates `n` with
`WORKERS_NUMBER`. -/
def initWorkers (n : Nat) : List WorkerState :=
  List.replicate n Worker.initState

/-- Python `DownloadManager.__init__` generalized over the pool size. -/
def initState (n : Nat) (urls : List Item) : ManagerState :=
  { urls_list := urls, workers := initWorkers n,
    successful := 0, running := true }

/-- Python `DownloadManager.__init__` as written: pool size `WORKERS_NUMBER`. -/
def new (urls : List Item) : ManagerState :=
  initState WORKERS_NUMBER urls

/-- Python `DownloadManager._jobs_done`: every worker is available. -/
def jobs_done (ws : List WorkerState) : Bool :=
  ws.all Worker.available

/-- Python `DownloadManager.add_url`: `self.urls_list.append(url)`. -/
def add_url (m : ManagerState) (u : Item) : ManagerState :=
  { m with urls_list := m.urls_list ++ [u] }

/-- Python `DownloadManager.stop_downloads`: send `closing` to the GUI, set
`_running = False`, and call `stop_download` on every worker (a request
to the downloader that the completion oracle accounts for). -/
def stop_downloads (m : ManagerState) : ManagerState × List Event :=
  ({ m with running := false }, [Event.signal "closing"])

/-- The inner `for worker in self._workers` of the dispatch loop:
walk the pool in order, and for each worker, if `worker.available()` and
`self.urls_list` is non-empty, pop the head and `worker.download` it.
The first argument is the pool position of the first worker, used only to
tag the trace.  Returns the updated pool, the remaining queue and the
trace of assignments. -/
def dispatchWorkers : Nat → List WorkerState → List Item →
    List WorkerState × List Item × List Event
  | _, [], urls => ([], urls, [])
  | i, w :: ws, [] =>
    let r := dispatchWorkers (i + 1) ws []
    (w :: r.1, r.2.1, r.2.2)
  | i, w :: ws, u :: rest =>
    if Worker.available w then
      let r := dispatchWorkers (i + 1) ws rest
      (Worker.download w u :: r.1, r.2.1, Event.assign i u :: r.2.2)
    else
      let r := dispatchWorkers (i + 1) ws (u :: rest)
      (w :: r.1, r.2.1, r.2.2)

end DownloadManager

/-- What happens during one `time.sleep(WAIT_TIME)` window of the
dispatch loop, supplied by an oracle: busy workers whose downloader call
returns (pool position and return code), the number of
`stop_downloads` calls arriving from the GUI thread, and the urls passed
to `add_url`. -/
structure IterEffect where
  completions : List (Nat × RetCode)
  stopCalls : Nat
  added : List Item
deriving DecidableEq, Repr

namespace DownloadManager

/-- Apply the oracle's completions: each listed worker, when it exists
and is busy, finishes its downloader call with the given return code
(`workerComplete`).  Completions addressed to idle or out-of-range
workers do nothing (an idle worker's loop is just sleeping). -/
def applyCompletions : List WorkerState → Nat → List (Nat × RetCode) →
    List WorkerState × Nat
  | ws, succ, [] => (ws, succ)
  | ws, succ, (i, c) :: rest =>
    match ws[i]? with
    | some w =>
      if w.url.isSome then
        let r := workerComplete w c succ
        applyCompletions (ws.set i r.1) r.2 rest
      else applyCompletions ws succ rest
    | none => applyCompletions ws succ rest

/-- Repeated `stop_downloads` calls during one sleep window. -/
def applyStops : Nat → ManagerState → ManagerState × List Event
  | 0, m => (m, [])
  | n + 1, m =>
    let r1 := stop_downloads m
    let r2 := applyStops n r1.1
    (r2.1, r1.2 ++ r2.2)

/-- Everything that happens during one sleep window: completions, then
stop requests, then runtime `add_url` appends. -/
def applyEffect (m : ManagerState) (e : IterEffect) :
    ManagerState × List Event :=
  let rc := applyCompletions m.workers m.successful e.completions
  let rs := applyStops e.stopCalls
    { m with workers := rc.1, successful := rc.2 }
  ({ rs.1 with urls_list := rs.1.urls_list ++ e.added }, rs.2)

/-- One iteration of the `while self._running` body of
`DownloadManager.run`: the `for worker in self._workers` dispatch pass,
then the `time.sleep(WAIT_TIME)` window during which the oracle entry
`e` takes effect.  Returns the state after the sleep and the events of
the iteration. -/
def loopIter (m : ManagerState) (e : IterEffect) :
    ManagerState × List Event :=
  let d := dispatchWorkers 0 m.workers m.urls_list
  let r := applyEffect { m with workers := d.1, urls_list := d.2.1 } e
  (r.1, d.2.2 ++ r.2)

/-- The `while self._running` dispatch loop of `DownloadManager.run`,
driven by the oracle schedule `effs` (one entry per sleep window).
Per iteration: check `_running`; run `loopIter`; then
`if not self.urls_list and self._jobs_done(): break`.
Returns the state at loop exit, the unconsumed schedule and the trace,
or `none` when the schedule runs out before the loop exits. -/
def runLoop : ManagerState → List IterEffect →
    Option (ManagerState × List IterEffect × List Event)
  | m, [] => if m.running then none else some (m, [], [])
  | m, e :: rest =>
    if m.running then
      let s := loopIter m e
      if s.1.urls_list.isEmpty && jobs_done s.1.workers then
        some (s.1, rest, s.2)
      else
        match runLoop s.1 rest with
        | none => none
        | some t => some (t.1, t.2.1, s.2 ++ t.2.2)
    else some (m, e :: rest, [])

/-- The clean-up `for worker in self._workers: worker.close();
worker.join()` after the loop exits.  `close` flips the worker's
`_running` flag and asks its downloader to stop; `join` then blocks until
the worker's thread exits.  A worker that is still busy at that point
first finishes its in-flight call — the oracle list `codes` supplies the
return code each such call comes back with (`STOPPED` when the list is
short) — which still runs the success-counting branch of `Worker.run`.
The first argument tags the trace with pool positions. -/
def cleanupWorkers : Nat → List WorkerState → List RetCode → Nat →
    List WorkerState × Nat × List Event
  | _, [], _, succ => ([], succ, [])
  | i, w :: ws, codes, succ =>
    let w1 := Worker.close w
    let r1 :=
      if w1.url.isSome then
        workerComplete w1 (codes.headD RetCode.STOPPED) succ
      else (w1, succ)
    let r := cleanupWorkers (i + 1) ws codes.tail r1.2
    (r1.1 :: r.1, r.2.1,
      Event.closeW i :: Event.joinW i :: r.2.2)

/-- Python `DownloadManager.run` in full: the dispatch loop, then the clean-up
(close and join every worker), then the finalization of `_time_it_took`,
then the single terminal `_talk_to_gui` signal: `closed` when
`self._running` is false, `finished` otherwise. -/
def run (m : ManagerState) (effs : List IterEffect)
    (codes : List RetCode) :
    Option (ManagerState × List IterEffect × List Event) :=
  match runLoop m effs with
  | none => none
  | some (m1, rem, evs1) =>
    let c := cleanupWorkers 0 m1.workers codes m1.successful
    let m2 : ManagerState := { m1 with workers := c.1, successful := c.2.1 }
    let sig : String := if m2.running then "finished" else "closed"
    some (m2, rem, evs1 ++ c.2.2 ++ [Event.timeFinal, Event.signal sig])

end DownloadManager

/-- Items carried by the `assign` events of a trace, in trace order. -/
def assignedItems (evs : List Event) : List Item :=
  evs.filterMap fun e =>
    match e with
    | Event.assign _ u => some u
    | _ => none

/-- Is this event the lifecycle signal `s`? -/
def isSignal (s : String) : Event → Bool
  | Event.signal t => t == s
  | _ => false

/-- Number of `signal s` events in a trace. -/
def countSig (evs : List Event) (s : String) : Nat :=
  (evs.filter (isSignal s)).length

/-- Number of workers currently holding an assignment. -/
def busyCount (ws : List WorkerState) : Nat :=
  (ws.filter fun w => !Worker.available w).length

/-- All urls appended by `add_url` across a schedule, in order. -/
def addedItems (effs : List IterEffect) : List Item :=
  (effs.map IterEffect.added).flatten

/-- The trace the clean-up pass emits for a pool of `k` workers starting
at position `i`: close then join, worker by worker. -/
def closeJoinSeq : Nat → Nat → List Event
  | _, 0 => []
  | i, k + 1 => Event.closeW i :: Event.joinW i :: closeJoinSeq (i + 1) k

/-- The fields of the progress dictionary that `Worker._data_hook` and
`Worker._talk_to_gui` read or write: the human-readable `status` text,
the `playlist_index` and `playlist_size` strings (each may be None), and
the `index` key that `_talk_to_gui` overwrites with the worker's row. -/
structure StatusEvent where
  status : Option String
  playlist_index : Option String
  playlist_size : Option String
  index : Int
deriving DecidableEq, Repr

namespace Worker

/-- Python `Worker._talk_to_gui`: set `data['index'] = self._index` and forward
the dictionary to the GUI. -/
def talk_to_gui (w : WorkerState) (d : StatusEvent) : StatusEvent :=
  { d with index := w.index }

/-- Python `Worker._data_hook`: when `data['status'] is not None and
data['playlist_index'] is not None`, build
`' ' + data['playlist_index'] + '/' + data['playlist_size']` and append
it to `data['status']`; then forward through `_talk_to_gui`.
`data['playlist_size']` is never tested: when it is None the string
concatenation raises a `TypeError`, modelled as `none`. -/
def data_hook (w : WorkerState) (d : StatusEvent) : Option StatusEvent :=
  match d.status, d.playlist_index with
  | some st, some pidx =>
    match d.playlist_size with
    | some psz =>
      some (talk_to_gui w
        { d with status := some (st ++ " " ++ pidx ++ "/" ++ psz) })
    | none => none
  | _, _ => some (talk_to_gui w d)

end Worker

/-- Four queued urls for the success-accounting scenario. -/
def c2Items : List Item :=
  [⟨"u1", 0⟩, ⟨"u2", 1⟩, ⟨"u3", 2⟩, ⟨"u4", 3⟩]

/-- Schedule of the success-accounting scenario: one worker, and its
downloader calls return OK, ERROR, ALREADY, ERROR in that order. -/
def c2Effs : List IterEffect :=
  [⟨[(0, RetCode.OK)], 0, []⟩, ⟨[(0, RetCode.ERROR)], 0, []⟩,
   ⟨[(0, RetCode.ALREADY)], 0, []⟩, ⟨[(0, RetCode.ERROR)], 0, []⟩]

/-- A progress dictionary with a status text and a playlist position but
no playlist size. -/
def c5Ev : StatusEvent :=
  { status := some "Downloading", playlist_index := some "1",
    playlist_size := none, index := 0 }

open DownloadManager

/-! ### Lemmas about the dispatch pass -/

theorem dispatch_nil (ws : List WorkerState) :
    ∀ i, dispatchWorkers i ws [] = (ws, [], []) := by
  induction ws with
  | nil => intro i; rfl
  | cons w ws ih => intro i; simp [dispatchWorkers, ih]

theorem dispatch_length (ws : List WorkerState) :
    ∀ i urls, (dispatchWorkers i ws urls).1.length = ws.length := by
  induction ws with
  | nil => intro i urls; rfl
  | cons w ws ih =>
    intro i urls
    cases urls with
    | nil => simp [dispatchWorkers, ih]
    | cons u rest =>
      by_cases h : Worker.available w
      · simp [dispatchWorkers, h, ih]
      · simp [dispatchWorkers, h, ih]

theorem dispatch_busy_unchanged (ws : List WorkerState) :
    ∀ (i : Nat) (urls : List Item) (j : Nat) (w : WorkerState),
      ws[j]? = some w → Worker.available w = false →
      (dispatchWorkers i ws urls).1[j]? = some w := by
  induction ws with
  | nil => intro i urls j w h _; simp at h
  | cons x ws ih =>
    intro i urls j w h hav
    cases j with
    | zero =>
      simp only [List.getElem?_cons_zero, Option.some.injEq] at h
      subst h
      cases urls with
      | nil => simp [dispatch_nil]
      | cons u rest => simp [dispatchWorkers, hav]
    | succ j =>
      have h' : ws[j]? = some w := by simpa using h
      cases urls with
      | nil => simpa [dispatchWorkers] using ih (i + 1) [] j w h' hav
      | cons u rest =>
        by_cases hx : Worker.available x
        · simpa [dispatchWorkers, hx] using ih (i + 1) rest j w h' hav
        · simpa [dispatchWorkers, hx] using ih (i + 1) (u :: rest) j w h' hav

theorem dispatch_assigned (ws : List WorkerState) :
    ∀ i urls,
      assignedItems (dispatchWorkers i ws urls).2.2 ++
        (dispatchWorkers i ws urls).2.1 = urls := by
  induction ws with
  | nil => intro i urls; simp [dispatchWorkers, assignedItems]
  | cons x ws ih =>
    intro i urls
    cases urls with
    | nil => simp [dispatch_nil, assignedItems]
    | cons u rest =>
      by_cases hx : Worker.available x
      · simpa [dispatchWorkers, hx, assignedItems] using ih (i + 1) rest
      · simpa [dispatchWorkers, hx, assignedItems] using ih (i + 1) (u :: rest)

theorem dispatch_events (ws : List WorkerState) :
    ∀ i urls ev, ev ∈ (dispatchWorkers i ws urls).2.2 →
      ∃ j u, ev = Event.assign j u := by
  induction ws with
  | nil => intro i urls ev h; simp [dispatchWorkers] at h
  | cons x ws ih =>
    intro i urls ev h
    cases urls with
    | nil => simp [dispatch_nil] at h
    | cons u rest =>
      by_cases hx : Worker.available x
      · simp only [dispatchWorkers, hx, if_true, List.mem_cons] at h
        rcases h with rfl | h
        · exact ⟨i, u, rfl⟩
        · exact ih (i + 1) rest ev h
      · simp only [dispatchWorkers, hx] at h
        exact ih (i + 1) (u :: rest) ev (by simpa using h)

/-! ### Lemmas about traces -/

theorem assignedItems_append (a b : List Event) :
    assignedItems (a ++ b) = assignedItems a ++ assignedItems b := by
  simp [assignedItems]

theorem assignedItems_replicate_closing (n : Nat) :
    assignedItems (List.replicate n (Event.signal "closing")) = [] := by
  induction n with
  | zero => rfl
  | succ n ih => simp [assignedItems, List.replicate_succ]

theorem countSig_append (a b : List Event) (s : String) :
    countSig (a ++ b) s = countSig a s + countSig b s := by
  simp [countSig]

theorem countSig_cons (e : Event) (evs : List Event) (s : String) :
    countSig (e :: evs) s
      = (if isSignal s e then 1 else 0) + countSig evs s := by
  simp only [countSig, List.filter_cons]
  split
  · simp [Nat.add_comm]
  · simp

theorem countSig_eq_zero (evs : List Event) (s : String)
    (h : ∀ e ∈ evs, isSignal s e = false) : countSig evs s = 0 := by
  induction evs with
  | nil => rfl
  | cons e evs ih =>
    rw [countSig_cons, h e (List.mem_cons_self e evs)]
    simpa using ih fun x hx => h x (List.mem_cons_of_mem e hx)

theorem countSig_replicate_closing (n : Nat) :
    countSig (List.replicate n (Event.signal "closing")) "closing" = n := by
  induction n with
  | zero => rfl
  | succ n ih =>
    simp [List.replicate_succ, countSig_cons, ih, isSignal, Nat.add_comm]

theorem closeJoinSeq_no_signal (k : Nat) :
    ∀ i s, countSig (closeJoinSeq i k) s = 0 := by
  induction k with
  | zero => intro i s; rfl
  | succ k ih =>
    intro i s
    simp [closeJoinSeq, countSig_cons, isSignal, ih]

theorem closeJoinSeq_no_assign (k : Nat) :
    ∀ i, assignedItems (closeJoinSeq i k) = [] := by
  induction k with
  | zero => intro i; rfl
  | succ k ih => intro i; simp [closeJoinSeq, assignedItems] at ih ⊢; exact ih _

theorem addedItems_cons (e : IterEffect) (effs : List IterEffect) :
    addedItems (e :: effs) = e.added ++ addedItems effs := by
  simp [addedItems]

/-! ### Lemmas about the sleep-window effects -/

theorem applyStops_fst (n : Nat) : ∀ m : ManagerState,
    (applyStops n m).1 = if n = 0 then m else { m with running := false } := by
  induction n with
  | zero => intro m; rfl
  | succ n ih =>
    intro m
    simp only [applyStops, stop_downloads, ih]
    split <;> rfl

theorem applyStops_snd (n : Nat) : ∀ m : ManagerState,
    (applyStops n m).2 = List.replicate n (Event.signal "closing") := by
  induction n with
  | zero => intro m; rfl
  | succ n ih => simp [applyStops, stop_downloads, ih, List.replicate_succ]

theorem applyCompletions_length (comps : List (Nat × RetCode)) :
    ∀ ws succ, (applyCompletions ws succ comps).1.length = ws.length := by
  induction comps with
  | nil => intro ws succ; rfl
  | cons p rest ih =>
    intro ws succ
    obtain ⟨i, c⟩ := p
    simp only [applyCompletions]
    cases h : ws[i]? with
    | none => simp [ih]
    | some w =>
      by_cases hb : w.url.isSome
      · simp [hb, ih]
      · simp [hb, ih]

theorem applyCompletions_index (comps : List (Nat × RetCode)) :
    ∀ (ws : List WorkerState) (succ j : Nat),
      ((applyCompletions ws succ comps).1[j]?).map WorkerState.index
        = (ws[j]?).map WorkerState.index := by
  induction comps with
  | nil => intro ws succ j; rfl
  | cons p rest ih =>
    intro ws succ j
    obtain ⟨i, c⟩ := p
    simp only [applyCompletions]
    cases h : ws[i]? with
    | none => simp [ih]
    | some w =>
      by_cases hb : w.url.isSome
      · have hi : i < ws.length := by
          by_contra hlt
          rw [List.getElem?_eq_none (Nat.le_of_not_lt hlt)] at h
          exact Option.noConfusion h
        simp only [hb, if_true, ih]
        rcases eq_or_ne i j with rfl | hne
        · rw [List.getElem?_set_eq_of_lt _ hi, h]
          rfl
        · rw [List.getElem?_set_ne hne]
      · simp [hb, ih]

theorem applyCompletions_idle (comps : List (Nat × RetCode)) :
    ∀ (ws : List WorkerState) (succ : Nat), (∀ w ∈ ws, w.url = none) →
      applyCompletions ws succ comps = (ws, succ) := by
  induction comps with
  | nil => intro ws succ _; rfl
  | cons p rest ih =>
    intro ws succ h
    obtain ⟨i, c⟩ := p
    simp only [applyCompletions]
    cases hw : ws[i]? with
    | none => exact ih ws succ h
    | some w =>
      have hmem : w ∈ ws := List.getElem?_mem hw
      have : w.url = none := h w hmem
      simp [this, ih ws succ h]

theorem applyEffect_fst (m : ManagerState) (e : IterEffect) :
    (applyEffect m e).1 =
      { urls_list := m.urls_list ++ e.added,
        workers := (applyCompletions m.workers m.successful e.completions).1,
        successful := (applyCompletions m.workers m.successful e.completions).2,
        running := if e.stopCalls = 0 then m.running else false } := by
  simp only [applyEffect, applyStops_fst]
  split <;> rfl

theorem applyEffect_snd (m : ManagerState) (e : IterEffect) :
    (applyEffect m e).2
      = List.replicate e.stopCalls (Event.signal "closing") := by
  simp [applyEffect, applyStops_snd]

/-! ### Lemmas about one iteration of the dispatch loop -/

theorem loopIter_urls (m : ManagerState) (e : IterEffect) :
    assignedItems (loopIter m e).2 ++ (loopIter m e).1.urls_list
      = m.urls_list ++ e.added := by
  simp only [loopIter, applyEffect_fst, applyEffect_snd, assignedItems_append,
    assignedItems_replicate_closing, List.append_nil]
  rw [← List.append_assoc, dispatch_assigned]

theorem loopIter_workers_length (m : ManagerState) (e : IterEffect) :
    (loopIter m e).1.workers.length = m.workers.length := by
  simp only [loopIter, applyEffect_fst]
  rw [applyCompletions_length, dispatch_length]

theorem loopIter_running (m : ManagerState) (e : IterEffect) :
    (loopIter m e).1.running
      = if e.stopCalls = 0 then m.running else false := by
  simp only [loopIter, applyEffect_fst]

theorem loopIter_events (m : ManagerState) (e : IterEffect) :
    ∀ ev ∈ (loopIter m e).2,
      (∃ j u, ev = Event.assign j u) ∨ ev = Event.signal "closing" := by
  intro ev hm
  simp only [loopIter, applyEffect_snd] at hm
  rcases List.mem_append.mp hm with h | h
  · exact Or.inl (dispatch_events _ _ _ _ h)
  · exact Or.inr (List.eq_of_mem_replicate h)

/-! ### The dispatch loop -/

theorem runLoop_spec (effs : List IterEffect) :
    ∀ (m m' : ManagerState) (rem : List IterEffect) (evs : List Event),
      runLoop m effs = some (m', rem, evs) →
      (∃ pre, effs = pre ++ rem ∧
         assignedItems evs ++ m'.urls_list = m.urls_list ++ addedItems pre ∧
         ((∀ e ∈ pre, e.stopCalls = 0) → m'.running = m.running)) ∧
      m'.workers.length = m.workers.length ∧
      (∀ ev ∈ evs,
        (∃ j u, ev = Event.assign j u) ∨ ev = Event.signal "closing") := by
  induction effs with
  | nil =>
    intro m m' rem evs h
    simp only [runLoop] at h
    by_cases hr : m.running
    · simp [hr] at h
    · simp only [hr, if_false, Option.some.injEq, Prod.mk.injEq] at h
      obtain ⟨rfl, rfl, rfl⟩ := h
      refine ⟨⟨[], by simp, by simp [assignedItems, addedItems], fun _ => rfl⟩,
        rfl, by simp⟩
  | cons e rest ih =>
    intro m m' rem evs h
    simp only [runLoop] at h
    by_cases hr : m.running
    case neg =>
      simp only [hr, if_false, Option.some.injEq, Prod.mk.injEq] at h
      obtain ⟨rfl, rfl, rfl⟩ := h
      refine ⟨⟨[], by simp, by simp [assignedItems, addedItems], fun _ => rfl⟩,
        rfl, by simp⟩
    case pos =>
      simp only [hr, if_true] at h
      by_cases hbreak :
          ((loopIter m e).1.urls_list.isEmpty
            && jobs_done (loopIter m e).1.workers) = true
      · rw [if_pos hbreak] at h
        simp only [Option.some.injEq, Prod.mk.injEq] at h
        obtain ⟨h1, h2, h3⟩ := h
        subst h1; subst h2; subst h3
        refine ⟨⟨[e], rfl, ?_, ?_⟩, loopIter_workers_length m e,
          loopIter_events m e⟩
        · simpa [addedItems_cons, addedItems] using loopIter_urls m e
        · intro hs
          have h0 : e.stopCalls = 0 := hs e (List.mem_cons_self e [])
          simp [loopIter_running, h0]
      · rw [if_neg hbreak] at h
        cases hrec : runLoop (loopIter m e).1 rest with
        | none => rw [hrec] at h; exact absurd h (by simp)
        | some t =>
          obtain ⟨m3, rem3, evs3⟩ := t
          rw [hrec] at h
          simp only [Option.some.injEq, Prod.mk.injEq] at h
          obtain ⟨h1, h2, h3⟩ := h
          subst h1; subst h2; subst h3
          obtain ⟨⟨pre, hpre, hq, hrun⟩, hlen, hevs⟩ :=
            ih (loopIter m e).1 m3 rem3 evs3 hrec
          refine ⟨⟨e :: pre, by simp [hpre], ?_, ?_⟩, ?_, ?_⟩
          · rw [assignedItems_append, addedItems_cons, List.append_assoc,
              hq, ← List.append_assoc, loopIter_urls, List.append_assoc]
          · intro hs
            have h0 : e.stopCalls = 0 := hs e (List.mem_cons_self e _)
            rw [hrun fun x hx => hs x (List.mem_cons_of_mem e hx),
              loopIter_running, if_pos h0]
          · rw [hlen, loopIter_workers_length]
          · intro ev hm
            rcases List.mem_append.mp hm with hm | hm
            · exact loopIter_events m e ev hm
            · exact hevs ev hm

/-! ### Lemmas about the clean-up pass -/

theorem cleanup_events (ws : List WorkerState) :
    ∀ (i : Nat) (codes : List RetCode) (succ : Nat),
      (cleanupWorkers i ws codes succ).2.2 = closeJoinSeq i ws.length := by
  induction ws with
  | nil => intro i codes succ; rfl
  | cons w ws ih =>
    intro i codes succ
    by_cases h : (Worker.close w).url.isSome
    · simp [cleanupWorkers, closeJoinSeq, h, ih]
    · simp [cleanupWorkers, closeJoinSeq, h, ih]

theorem cleanup_length (ws : List WorkerState) :
    ∀ (i : Nat) (codes : List RetCode) (succ : Nat),
      (cleanupWorkers i ws codes succ).1.length = ws.length := by
  induction ws with
  | nil => intro i codes succ; rfl
  | cons w ws ih =>
    intro i codes succ
    by_cases h : (Worker.close w).url.isSome
    · simp [cleanupWorkers, h, ih]
    · simp [cleanupWorkers, h, ih]

theorem cleanup_not_running (ws : List WorkerState) :
    ∀ (i : Nat) (codes : List RetCode) (succ : Nat),
      ∀ w' ∈ (cleanupWorkers i ws codes succ).1, w'.running = false := by
  induction ws with
  | nil => intro i codes succ w' h; simp [cleanupWorkers] at h
  | cons w ws ih =>
    intro i codes succ w' h
    by_cases hb : (Worker.close w).url.isSome
    · simp only [cleanupWorkers, hb, if_true, List.mem_cons] at h
      rcases h with rfl | h
      · rfl
      · exact ih _ _ _ w' h
    · simp only [cleanupWorkers, hb, if_false, List.mem_cons] at h
      rcases h with rfl | h
      · rfl
      · exact ih _ _ _ w' h

/-! ### The full run method -/

theorem run_spec (m : ManagerState) (effs : List IterEffect)
    (codes : List RetCode) (m' : ManagerState) (rem : List IterEffect)
    (evs : List Event) (h : run m effs codes = some (m', rem, evs)) :
    ∃ (m1 : ManagerState) (evs1 : List Event),
      runLoop m effs = some (m1, rem, evs1) ∧
      evs = evs1 ++ closeJoinSeq 0 m1.workers.length
        ++ [Event.timeFinal,
            Event.signal (if m1.running then "finished" else "closed")] ∧
      m'.running = m1.running ∧
      m'.urls_list = m1.urls_list ∧
      m'.workers.length = m1.workers.length ∧
      (∀ w ∈ m'.workers, w.running = false) := by
  cases hrl : runLoop m effs with
  | none => rw [run, hrl] at h; exact absurd h (by simp)
  | some t =>
    obtain ⟨m1, rem1, evs1⟩ := t
    rw [run, hrl] at h
    simp only [Option.some.injEq, Prod.mk.injEq] at h
    obtain ⟨h1, h2, h3⟩ := h
    subst h1; subst h2; subst h3
    refine ⟨m1, evs1, rfl, ?_, rfl, rfl, ?_, ?_⟩
    · rw [cleanup_events]
    · simp [cleanup_length]
    · intro w hw
      exact cleanup_not_running m1.workers 0 codes m1.successful w hw

theorem runLoop_countSig (m : ManagerState) (effs : List IterEffect)
    (m' : ManagerState) (rem : List IterEffect) (evs : List Event)
    (h : runLoop m effs = some (m', rem, evs)) (s : String)
    (hs : s ≠ "closing") : countSig evs s = 0 := by
  obtain ⟨_, _, hevs⟩ := runLoop_spec effs m m' rem evs h
  refine countSig_eq_zero evs s fun e he => ?_
  rcases hevs e he with ⟨j, u, rfl⟩ | rfl
  · rfl
  · simpa [isSignal] using beq_eq_false_iff_ne.mpr (Ne.symm hs)

theorem countSig_tail_self (s : String) :
    countSig [Event.timeFinal, Event.signal s] s = 1 := by
  simp [countSig, isSignal]

theorem countSig_tail_ne (s t : String) (h : s ≠ t) :
    countSig [Event.timeFinal, Event.signal s] t = 0 := by
  simp [countSig, isSignal, beq_eq_false_iff_ne.mpr h]

theorem runLoop_not_running (m : ManagerState) (effs : List IterEffect)
    (hm : m.running = false) : runLoop m effs = some (m, effs, []) := by
  cases effs <;> simp [runLoop, hm]

theorem jobs_done_initWorkers (n : Nat) :
    jobs_done (initWorkers n) = true := by
  rw [jobs_done, List.all_eq_true]
  intro w hw
  have hw' : w ∈ List.replicate n Worker.initState := by
    simpa [initWorkers] using hw
  rw [List.eq_of_mem_replicate hw']
  rfl

theorem initWorkers_idle (n : Nat) :
    ∀ w ∈ initWorkers n, w.url = none := by
  intro w hw
  have hw' : w ∈ List.replicate n Worker.initState := by
    simpa [initWorkers] using hw
  rw [List.eq_of_mem_replicate hw']
  rfl

/-! ### Claim theorems -/

/-- C9: the enrichment in `Worker._data_hook` tests `status` and
`playlist_index` for absence but never `playlist_size`; for every event
whose status and playlist position are present while the playlist size is
absent, the hook reaches the branch that concatenates the absent size
(the failing concatenation, modelled as `none`). -/
theorem C9_playlist_size_unchecked (w : WorkerState) (st pidx : String)
    (i : Int) :
    Worker.data_hook w
      { status := some st, playlist_index := some pidx,
        playlist_size := none, index := i } = none :=
  rfl

/-- C10: a Worker's `_index` starts at `-1`; completing an item clears
only `_url` (the index and the running flag survive); completions never
change any worker's stored index; `_talk_to_gui` stamps the forwarded
event with the worker's current `_index`, so events forwarded before the
first assignment carry `-1` and events forwarded after a completion but
before the next assignment carry the previous item's row. -/
theorem C10_index_never_cleared :
    Worker.initState.index = -1 ∧
    (∀ (w : WorkerState) (c : RetCode) (succ : Nat),
      (workerComplete w c succ).1.index = w.index ∧
      (workerComplete w c succ).1.url = none ∧
      (workerComplete w c succ).1.running = w.running) ∧
    (∀ (comps : List (Nat × RetCode)) (ws : List WorkerState)
        (succ j : Nat),
      ((applyCompletions ws succ comps).1[j]?).map WorkerState.index
        = (ws[j]?).map WorkerState.index) ∧
    (∀ (w : WorkerState) (d : StatusEvent),
      (Worker.talk_to_gui w d).index = w.index) ∧
    (∀ d : StatusEvent,
      (Worker.talk_to_gui Worker.initState d).index = -1) :=
  ⟨rfl, fun _ _ _ => ⟨rfl, rfl, rfl⟩, applyCompletions_index,
   fun _ _ => rfl, fun _ => rfl⟩

/-- C5, counterexample: on the event `c5Ev` (status and playlist position
present, playlist size absent) the claim predicts the status text is
forwarded unchanged, but `Worker._data_hook` does not forward any event:
it fails by concatenating the absent playlist size. -/
theorem C5_counterexample :
    Worker.data_hook Worker.initState c5Ev = none ∧
    Worker.data_hook Worker.initState c5Ev
      ≠ some (Worker.talk_to_gui Worker.initState c5Ev) ∧
    c5Ev.status = some "Downloading" ∧
    c5Ev.playlist_index = some "1" ∧
    c5Ev.playlist_size = none := by
  refine ⟨rfl, ?_, rfl, rfl, rfl⟩
  intro h
  exact Option.noConfusion h

/-- C5, amended: the Worker forwards each StatusEvent enriched with the
owning row index and appends the fragment exactly when the status text
and the playlist position are both present — the playlist size is not
part of the test.  When the status or the playlist position is absent the
event is forwarded with its status text unchanged; when both are present
but the playlist size is absent, the hook fails while concatenating the
absent size and forwards nothing. -/
theorem C5_amended (w : WorkerState) (d : StatusEvent) :
    (∀ st pidx psz, d.status = some st → d.playlist_index = some pidx →
      d.playlist_size = some psz →
      Worker.data_hook w d = some
        { d with status := some (st ++ " " ++ pidx ++ "/" ++ psz),
                 index := w.index }) ∧
    (d.status = none ∨ d.playlist_index = none →
      Worker.data_hook w d = some { d with index := w.index }) ∧
    (d.status ≠ none → d.playlist_index ≠ none → d.playlist_size = none →
      Worker.data_hook w d = none) := by
  obtain ⟨st, pidx, psz, i⟩ := d
  refine ⟨?_, ?_, ?_⟩
  · rintro st' pidx' psz' rfl rfl rfl
    rfl
  · rintro (rfl | rfl)
    · cases pidx <;> rfl
    · cases st <;> rfl
  · intro hst hpidx hpsz
    cases st with
    | none => exact absurd rfl hst
    | some st =>
      cases pidx with
      | none => exact absurd rfl hpidx
      | some pidx =>
        cases psz with
        | none => rfl
        | some psz => exact absurd hpsz (by simp)

/-- C5, amended, witness: the append branch at a concrete event. -/
theorem C5_amended_witness :
    Worker.data_hook ⟨true, some "u", 4⟩
      { status := some "Downloading", playlist_index := some "2",
        playlist_size := some "9", index := 0 }
      = some { status := some "Downloading 2/9", playlist_index := some "2",
               playlist_size := some "9", index := 4 } :=
  (C5_amended ⟨true, some "u", 4⟩
    { status := some "Downloading", playlist_index := some "2",
      playlist_size := some "9", index := 0 }).1
    "Downloading" "2" "9" rfl rfl rfl

/-- C2: a completed item bumps `_successful` exactly when its return
code is `OK` or `ALREADY` (the already-exists code) and leaves it
unchanged on every other code; and running 4 items through a single
worker whose downloader returns OK, ERROR, ALREADY, ERROR ends with
`successful = 2`. -/
theorem C2_success_accounting :
    (∀ c : RetCode,
      isSuccessCode c = true ↔ (c = RetCode.OK ∨ c = RetCode.ALREADY)) ∧
    (∀ (w : WorkerState) (c : RetCode) (succ : Nat),
      (workerComplete w c succ).2
        = if c = RetCode.OK ∨ c = RetCode.ALREADY then succ + 1
          else succ) ∧
    (Option.map (fun r => r.1.successful)
        (run (initState 1 c2Items) c2Effs []) = some 2) := by
  refine ⟨?_, ?_, by decide⟩
  · intro c
    cases c <;> simp [isSuccessCode]
  · intro w c succ
    cases c <;> simp [workerComplete, isSuccessCode]

/-- C1: the pool is allocated with exactly `WORKERS_NUMBER` (3) workers
at construction; at most as many items as workers are ever assigned
(each worker holds at most one); the dispatch pass assigns only to
workers whose `available()` is true, leaving every busy worker's
assignment untouched; and a full run preserves the pool size, so the
bound holds in every reachable state, for any pool size and queue. -/
theorem C1_bounded_pool :
    WORKERS_NUMBER = 3 ∧
    (∀ urls : List Item,
      (new urls).workers.length = WORKERS_NUMBER) ∧
    (∀ (n : Nat) (urls : List Item),
      (initState n urls).workers.length = n) ∧
    (∀ ws : List WorkerState, busyCount ws ≤ ws.length) ∧
    (∀ (ws : List WorkerState) (i : Nat) (urls : List Item) (j : Nat)
        (w : WorkerState),
      ws[j]? = some w → Worker.available w = false →
      (dispatchWorkers i ws urls).1[j]? = some w) ∧
    (∀ (m : ManagerState) (effs : List IterEffect) (codes : List RetCode)
        (m' : ManagerState) (rem : List IterEffect) (evs : List Event),
      run m effs codes = some (m', rem, evs) →
      m'.workers.length = m.workers.length ∧
      busyCount m'.workers ≤ m.workers.length) := by
  refine ⟨rfl, ?_, ?_, ?_, dispatch_busy_unchanged, ?_⟩
  · intro urls
    simp [new, initState, initWorkers]
  · intro n urls
    simp [initState, initWorkers]
  · intro ws
    exact List.length_filter_le _ ws
  · intro m effs codes m' rem evs h
    obtain ⟨m1, evs1, hrl, _, _, _, hlen, _⟩ :=
      run_spec m effs codes m' rem evs h
    obtain ⟨_, hlen1, _⟩ := runLoop_spec effs m m1 rem evs1 hrl
    refine ⟨by rw [hlen, hlen1], ?_⟩
    calc busyCount m'.workers ≤ m'.workers.length :=
          List.length_filter_le _ _
      _ = m.workers.length := by rw [hlen, hlen1]

/-- C1, witness: the dispatch pass leaves a busy worker untouched on a
concrete pool, and a concrete full run preserves the pool size 3. -/
theorem C1_bounded_pool_witness :
    ((dispatchWorkers 0 [⟨true, some "u", 5⟩] [⟨"v", 7⟩]).1[0]?
        = some ⟨true, some "u", 5⟩) ∧
    (({ urls_list := [], workers := List.replicate 3 ⟨false, none, -1⟩,
        successful := 0, running := true } : ManagerState).workers.length
          = (new []).workers.length ∧
      busyCount ({ urls_list := [],
                   workers := List.replicate 3 ⟨false, none, -1⟩,
                   successful := 0,
                   running := true } : ManagerState).workers
          ≤ (new []).workers.length) :=
  ⟨C1_bounded_pool.2.2.2.2.1 [⟨true, some "u", 5⟩] 0 [⟨"v", 7⟩] 0
      ⟨true, some "u", 5⟩ rfl rfl,
   C1_bounded_pool.2.2.2.2.2 (new []) [⟨[], 0, []⟩] []
      { urls_list := [], workers := List.replicate 3 ⟨false, none, -1⟩,
        successful := 0, running := true } []
      [Event.closeW 0, Event.joinW 0, Event.closeW 1, Event.joinW 1,
       Event.closeW 2, Event.joinW 2, Event.timeFinal,
       Event.signal "finished"]
      (by decide)⟩

/-- C6: `add_url` appends at the tail of `urls_list`; the dispatch pass
removes items from the head only, so the items it assigns (in trace
order) followed by the untouched remainder equal the original queue; and
over a whole run the assignment trace followed by the final queue equals
the initial queue followed by the runtime-added items, so every assigned
prefix respects FIFO order and runtime additions are dispatched strictly
after all items already queued. -/
theorem C6_fifo_order :
    (∀ (m : ManagerState) (u : Item),
      (add_url m u).urls_list = m.urls_list ++ [u]) ∧
    (∀ (i : Nat) (ws : List WorkerState) (urls : List Item),
      assignedItems (dispatchWorkers i ws urls).2.2
        ++ (dispatchWorkers i ws urls).2.1 = urls) ∧
    (∀ (m : ManagerState) (effs : List IterEffect) (m' : ManagerState)
        (rem : List IterEffect) (evs : List Event),
      runLoop m effs = some (m', rem, evs) →
      ∃ pre, effs = pre ++ rem ∧
        assignedItems evs ++ m'.urls_list
          = m.urls_list ++ addedItems pre) := by
  refine ⟨fun m u => rfl, fun i ws urls => dispatch_assigned ws i urls, ?_⟩
  intro m effs m' rem evs h
  obtain ⟨⟨pre, hpre, hq, _⟩, _, _⟩ := runLoop_spec effs m m' rem evs h
  exact ⟨pre, hpre, hq⟩

/-- C6, witness: with one worker and queue A then B, the run's
assignment trace is A then B. -/
theorem C6_fifo_order_witness :
    ∃ pre, ([⟨[(0, RetCode.OK)], 0, []⟩, ⟨[(0, RetCode.OK)], 0, []⟩]
        : List IterEffect) = pre ++ [] ∧
      assignedItems [Event.assign 0 ⟨"a", 0⟩, Event.assign 0 ⟨"b", 1⟩]
          ++ ([] : List Item)
        = [(⟨"a", 0⟩ : Item), ⟨"b", 1⟩] ++ addedItems pre :=
  C6_fifo_order.2.2 (initState 1 [⟨"a", 0⟩, ⟨"b", 1⟩])
    [⟨[(0, RetCode.OK)], 0, []⟩, ⟨[(0, RetCode.OK)], 0, []⟩]
    { urls_list := [], workers := [⟨true, none, 1⟩],
      successful := 2, running := true } []
    [Event.assign 0 ⟨"a", 0⟩, Event.assign 0 ⟨"b", 1⟩] (by decide)

/-- C8: whatever ends the dispatch loop, the trace of a completed run
closes and joins every worker of the final pool, in pool order, then
finalizes `_time_it_took`, and only then carries the one terminal
signal; every worker of the final state has a terminated loop, and no
terminal signal occurs anywhere earlier in the trace. -/
theorem C8_join_before_terminal (m : ManagerState) (effs : List IterEffect)
    (codes : List RetCode) (m' : ManagerState) (rem : List IterEffect)
    (evs : List Event) (h : run m effs codes = some (m', rem, evs)) :
    ∃ (evs1 : List Event) (sig : String),
      evs = evs1 ++ closeJoinSeq 0 m'.workers.length
        ++ [Event.timeFinal, Event.signal sig] ∧
      (sig = "finished" ∨ sig = "closed") ∧
      (∀ w ∈ m'.workers, w.running = false) ∧
      countSig evs1 "closed" = 0 ∧ countSig evs1 "finished" = 0 := by
  obtain ⟨m1, evs1, hrl, hevs, _, _, hlen, hnr⟩ :=
    run_spec m effs codes m' rem evs h
  refine ⟨evs1, if m1.running then "finished" else "closed",
    by rw [hlen]; exact hevs, ?_, hnr,
    runLoop_countSig m effs m1 rem evs1 hrl "closed" (by decide),
    runLoop_countSig m effs m1 rem evs1 hrl "finished" (by decide)⟩
  by_cases hm1 : m1.running = true <;> simp [hm1]

/-- C8, witness: the shutdown ordering on a concrete completed run with
three workers. -/
theorem C8_join_before_terminal_witness :
    ∃ (evs1 : List Event) (sig : String),
      ([Event.closeW 0, Event.joinW 0, Event.closeW 1, Event.joinW 1,
        Event.closeW 2, Event.joinW 2, Event.timeFinal,
        Event.signal "finished"]
        : List Event)
        = evs1
          ++ closeJoinSeq 0
            ({ urls_list := [],
               workers := List.replicate 3 ⟨false, none, -1⟩,
               successful := 0,
               running := true } : ManagerState).workers.length
          ++ [Event.timeFinal, Event.signal sig] ∧
      (sig = "finished" ∨ sig = "closed") ∧
      (∀ w ∈ ({ urls_list := [],
                workers := List.replicate 3 ⟨false, none, -1⟩,
                successful := 0,
                running := true } : ManagerState).workers,
        w.running = false) ∧
      countSig evs1 "closed" = 0 ∧ countSig evs1 "finished" = 0 :=
  C8_join_before_terminal (new []) [⟨[], 0, []⟩] []
    { urls_list := [], workers := List.replicate 3 ⟨false, none, -1⟩,
      successful := 0, running := true } []
    [Event.closeW 0, Event.joinW 0, Event.closeW 1, Event.joinW 1,
     Event.closeW 2, Event.joinW 2, Event.timeFinal,
     Event.signal "finished"]
    (by decide)

/-- C3: a completed run emits exactly one terminal signal; it is
`closed` exactly when the manager's `_running` flag was cleared by a
stop request, and `finished` exactly when the flag is still set at loop
exit; in particular a run with no stop request at all terminates with
`finished`. -/
theorem C3_one_terminal_signal (m : ManagerState) (effs : List IterEffect)
    (codes : List RetCode) (m' : ManagerState) (rem : List IterEffect)
    (evs : List Event) (h : run m effs codes = some (m', rem, evs)) :
    countSig evs "closed" + countSig evs "finished" = 1 ∧
    (countSig evs "closed" = 1 ↔ m'.running = false) ∧
    (countSig evs "finished" = 1 ↔ m'.running = true) ∧
    ((∀ e ∈ effs, e.stopCalls = 0) → m.running = true →
      countSig evs "finished" = 1) := by
  obtain ⟨m1, evs1, hrl, hevs, hrun, _, _, _⟩ :=
    run_spec m effs codes m' rem evs h
  obtain ⟨⟨pre, hpre, _, hrun1⟩, _, _⟩ :=
    runLoop_spec effs m m1 rem evs1 hrl
  have hc1 : countSig evs1 "closed" = 0 :=
    runLoop_countSig m effs m1 rem evs1 hrl "closed" (by decide)
  have hf1 : countSig evs1 "finished" = 0 :=
    runLoop_countSig m effs m1 rem evs1 hrl "finished" (by decide)
  have htail1 : countSig [Event.timeFinal, Event.signal "finished"]
      "closed" = 0 := countSig_tail_ne _ _ (by decide)
  have htail2 : countSig [Event.timeFinal, Event.signal "closed"]
      "finished" = 0 := countSig_tail_ne _ _ (by decide)
  subst hevs
  by_cases hm1 : m1.running = true
  · simp [hm1, countSig_append, hc1, hf1, closeJoinSeq_no_signal,
      htail1, countSig_tail_self, hrun]
  · have hm1' : m1.running = false := by
      simpa using hm1
    refine ⟨?_, ?_, ?_, ?_⟩
    · simp [hm1', countSig_append, hc1, hf1, closeJoinSeq_no_signal,
        htail2, countSig_tail_self]
    · simp [hm1', countSig_append, hc1, hf1, closeJoinSeq_no_signal,
        htail2, countSig_tail_self, hrun]
    · simp [hm1', countSig_append, hc1, hf1, closeJoinSeq_no_signal,
        htail2, countSig_tail_self, hrun]
    · intro hs hm
      exfalso
      have heq : m1.running = m.running :=
        hrun1 fun e he => hs e (by rw [hpre]; exact List.mem_append_left rem he)
      rw [hm1', hm] at heq
      exact Bool.noConfusion heq

/-- C3, witness: a concrete stop-free run emits exactly one terminal
signal, namely `finished`. -/
theorem C3_one_terminal_signal_witness :
    (countSig
        [Event.closeW 0, Event.joinW 0, Event.closeW 1, Event.joinW 1,
         Event.closeW 2, Event.joinW 2, Event.timeFinal,
         Event.signal "finished"] "closed"
      + countSig
        [Event.closeW 0, Event.joinW 0, Event.closeW 1, Event.joinW 1,
         Event.closeW 2, Event.joinW 2, Event.timeFinal,
         Event.signal "finished"] "finished" = 1) ∧
    countSig
        [Event.closeW 0, Event.joinW 0, Event.closeW 1, Event.joinW 1,
         Event.closeW 2, Event.joinW 2, Event.timeFinal,
         Event.signal "finished"] "finished" = 1 :=
  have a := C3_one_terminal_signal (new []) [⟨[], 0, []⟩] []
    { urls_list := [], workers := List.replicate 3 ⟨false, none, -1⟩,
      successful := 0, running := true } []
    [Event.closeW 0, Event.joinW 0, Event.closeW 1, Event.joinW 1,
     Event.closeW 2, Event.joinW 2, Event.timeFinal,
     Event.signal "finished"]
    (by decide)
  ⟨a.1, a.2.2.2 (by decide) rfl⟩

/-- C4, counterexample: with two `stop_downloads` calls arriving in the
first sleep window, the completed run's trace carries two `closing`
signals, not one; the terminal signal is a single `closed`. -/
theorem C4_counterexample :
    Option.map
        (fun r => (countSig r.2.2 "closing", countSig r.2.2 "closed",
          countSig r.2.2 "finished"))
        (run (new []) [⟨[], 2, []⟩] [])
      = some (2, 1, 0) ∧ (2 : Nat) ≠ 1 :=
  ⟨by decide, by decide⟩

/-- C4, amended: every `stop_downloads` call emits one `closing` signal
and clears `_running`, so calling it twice produces exactly two
`closing` signals (one per call, since the call is unguarded), and the
run of a manager whose `_running` flag is cleared emits exactly one
terminal signal, `closed`, never `finished`. -/
theorem C4_stop_twice :
    (∀ m : ManagerState,
      (stop_downloads m).2 = [Event.signal "closing"] ∧
      (stop_downloads m).1.running = false ∧
      countSig ((stop_downloads m).2
        ++ (stop_downloads (stop_downloads m).1).2) "closing" = 2 ∧
      (stop_downloads (stop_downloads m).1).1.running = false) ∧
    (∀ (m : ManagerState) (effs : List IterEffect) (codes : List RetCode)
        (m' : ManagerState) (rem : List IterEffect) (evs : List Event),
      m.running = false →
      run m effs codes = some (m', rem, evs) →
      countSig evs "closed" = 1 ∧ countSig evs "finished" = 0) := by
  refine ⟨fun m => ⟨rfl, rfl, rfl, rfl⟩, ?_⟩
  intro m effs codes m' rem evs hm h
  rw [run, runLoop_not_running m effs hm] at h
  simp only [Option.some.injEq, Prod.mk.injEq] at h
  obtain ⟨h1, h2, h3⟩ := h
  subst h3
  simp [hm, countSig_append, closeJoinSeq_no_signal, cleanup_events,
    countSig_tail_self, countSig_tail_ne "closed" "finished" (by decide)]

/-- C4, witness: the stopped-run branch at a concrete manager whose
`_running` flag was already cleared by `stop_downloads`. -/
theorem C4_stop_twice_witness :
    countSig
        [Event.closeW 0, Event.joinW 0, Event.closeW 1, Event.joinW 1,
         Event.closeW 2, Event.joinW 2, Event.timeFinal,
         Event.signal "closed"] "closed" = 1 ∧
    countSig
        [Event.closeW 0, Event.joinW 0, Event.closeW 1, Event.joinW 1,
         Event.closeW 2, Event.joinW 2, Event.timeFinal,
         Event.signal "closed"] "finished" = 0 :=
  C4_stop_twice.2 (stop_downloads (new [])).1 [] []
    { urls_list := [], workers := List.replicate 3 ⟨false, none, -1⟩,
      successful := 0, running := false } []
    [Event.closeW 0, Event.joinW 0, Event.closeW 1, Event.joinW 1,
     Event.closeW 2, Event.joinW 2, Event.timeFinal,
     Event.signal "closed"]
    rfl (by decide)

/-- C7: a manager with an empty initial queue, any pool size, no runtime
additions and no stop request dispatches nothing: the loop exits on its
first sleep window and the run emits exactly one `finished` signal and
no `closing` or `closed` signal. -/
theorem C7_empty_queue (n : Nat) (e : IterEffect) (rest : List IterEffect)
    (codes : List RetCode) (hs : e.stopCalls = 0) (ha : e.added = []) :
    ∃ (m' : ManagerState) (evs : List Event),
      run (initState n []) (e :: rest) codes = some (m', rest, evs) ∧
      assignedItems evs = [] ∧
      countSig evs "finished" = 1 ∧
      countSig evs "closing" = 0 ∧
      countSig evs "closed" = 0 := by
  have hdis : dispatchWorkers 0 (initWorkers n) ([] : List Item)
      = (initWorkers n, [], []) := dispatch_nil (initWorkers n) 0
  have hcomp : applyCompletions (initWorkers n) 0 e.completions
      = (initWorkers n, 0) :=
    applyCompletions_idle e.completions (initWorkers n) 0
      (initWorkers_idle n)
  have hstep : loopIter (initState n []) e = (initState n [], []) := by
    simp only [loopIter, initState]
    rw [hdis, applyEffect_fst, applyEffect_snd]
    simp [hcomp, hs, ha]
  have hrl : runLoop (initState n []) (e :: rest)
      = some (initState n [], rest, []) := by
    simp only [runLoop, hstep]
    simp [initState, jobs_done_initWorkers]
  refine ⟨{ urls_list := [],
            workers := (cleanupWorkers 0 (initWorkers n) codes 0).1,
            successful := (cleanupWorkers 0 (initWorkers n) codes 0).2.1,
            running := true },
          [] ++ (cleanupWorkers 0 (initWorkers n) codes 0).2.2
            ++ [Event.timeFinal, Event.signal "finished"],
          ?_, ?_, ?_, ?_, ?_⟩
  · rw [run, hrl]
    rfl
  · rw [List.nil_append, assignedItems_append, cleanup_events,
      closeJoinSeq_no_assign]
    rfl
  · simp [initState, cleanup_events, countSig_append,
      closeJoinSeq_no_signal, countSig_tail_self]
  · simp [initState, cleanup_events, countSig_append,
      closeJoinSeq_no_signal,
      countSig_tail_ne "finished" "closing" (by decide)]
  · simp [initState, cleanup_events, countSig_append,
      closeJoinSeq_no_signal,
      countSig_tail_ne "finished" "closed" (by decide)]

/-- C7, witness: the empty-queue run with the default pool size. -/
theorem C7_empty_queue_witness :
    ∃ (m' : ManagerState) (evs : List Event),
      run (initState 3 []) [⟨[], 0, []⟩] [] = some (m', [], evs) ∧
      assignedItems evs = [] ∧
      countSig evs "finished" = 1 ∧
      countSig evs "closing" = 0 ∧
      countSig evs "closed" = 0 :=
  C7_empty_queue 3 ⟨[], 0, []⟩ [] [] rfl rfl

end DlThread
